import Mathlib

/-!
Verification development for the A7 edge asset-resolution core.

The code under verification is `src/edge/src/actions/expand.ts` (resolver and
expansion orchestrator) and `src/edge/src/helpers/String.ts` (`hash`,
`localeCompare`).  The collaborator classes (`AssetNameParser`,
`AssetComparator`, `AssetPredicate`, `AssetNameSerializer`,
`isVersionPreciseEnough`) and the external collaborators (`allStoredAssets`,
`readFile`, minifiers) are not part of the sources; they are modelled from the
specification, as marked on each definition.

Strings coming from the JS runtime are modelled as Lean `String`s, except in
`String.ts` where the code iterates over UTF-16 code units: there a string is
modelled as its list of UTF-16 char codes (`List Nat`).  JS `undefined`/empty
distinctions that the code only ever observes through truthiness (`Boolean(x)`,
`x || y`) are modelled by `String` with `""` playing the role of
undefined-or-empty, which is observationally identical.
-/

/-- Modelled from the spec (§3 Data Model): an Asset Identifier with a name,
up to three optional version components (absent ≠ zero) and a sub-path.
The `path` keeps its leading slash exactly as the remainder of the URI;
`""` stands for "no path" (JS falsy). -/
structure Asset where
  name : String
  major : Option Nat
  minor : Option Nat
  patch : Option Nat
  path : String
deriving DecidableEq, Repr

/-- Modelled from the spec (§3, §6 `listStoredAssets`): a stored-asset catalog
entry, `{ storageName, defaultPath }`; `defaultPath = ""` stands for an absent
default path (JS falsy). -/
structure CatalogEntry where
  name : String
  defaultPath : String
deriving DecidableEq, Repr

/-- Split a list of characters on a separator character; mirrors
`String.splitOn` with a one-character separator (the only separators the
parser uses are `/`, `@` and `.`). -/
def splitOnChar (sep : Char) : List Char → List (List Char)
  | [] => [[]]
  | c :: rest =>
    match splitOnChar sep rest with
    | [] => [[]]
    | g :: gs => if c = sep then [] :: g :: gs else (c :: g) :: gs

/-- Split a string on a one-character separator. -/
def strSplitOn (sep : Char) (s : String) : List String :=
  (splitOnChar sep s.data).map String.mk

/-- The numeric value of a decimal digit character, or `none`. -/
def charToDigit (c : Char) : Option Nat :=
  if '0' ≤ c ∧ c ≤ '9' then some (c.toNat - 48) else none

/-- Parse a string of decimal digits as a non-negative integer; `none` on an
empty string or any non-digit character (mirrors `String.toNat?`). -/
def strToNat (s : String) : Option Nat :=
  match s.data with
  | [] => none
  | cs => cs.foldl (fun acc c => acc.bind (fun n => (charToDigit c).map (fun d => 10 * n + d)))
      (some 0)

/-- String suffix test over char lists (mirrors `String.endsWith`). -/
def strEndsWith (s suffix : String) : Bool :=
  List.isSuffixOf suffix.data s.data

/-- String one-character head test (mirrors `String.startsWith` for a
one-character pattern). -/
def strStartsWithChar (s : String) (c : Char) : Bool :=
  match s.data with
  | [] => false
  | d :: _ => d = c

/-- Modelled from the spec (§4.2): split a version substring on `.` and parse
each dot-delimited token as a non-negative integer; a missing or malformed
token makes its component, and all components after it, absent. -/
def parseVersionString (vs : String) : Option Nat × Option Nat × Option Nat :=
  let tokens := strSplitOn '.' vs
  match (tokens.get? 0).bind strToNat with
  | none => (none, none, none)
  | some v1 =>
    match (tokens.get? 1).bind strToNat with
    | none => (some v1, none, none)
    | some v2 =>
      match (tokens.get? 2).bind strToNat with
      | none => (some v1, some v2, none)
      | some v3 => (some v1, some v2, some v3)

/-- Modelled from the spec (§4.2, §6 grammar): parse a request URI
`/{name}[@{version}][/{subpath...}]`.  The URI's leading slash is stripped
once; the remainder after the first `name@version` segment becomes `path`
verbatim (so `path` keeps its own leading slash); absence of `@version`
means all three components absent. -/
def parseFromUrl (uri : String) : Asset :=
  let s := if strStartsWithChar uri '/' then uri.drop 1 else uri
  let parts := strSplitOn '/' s
  let firstSegment := parts.headD ""
  let path := if parts.length ≤ 1 then "" else "/" ++ String.intercalate "/" parts.tail
  let nameVer := strSplitOn '@' firstSegment
  let name := nameVer.headD ""
  let versionStr := String.intercalate "@" nameVer.tail
  let c := parseVersionString versionStr
  { name := name, major := c.1, minor := c.2.1, patch := c.2.2, path := path }

/-- Modelled from the spec (§4.2): parse a storage name
`name@major.minor.patch` with identical splitting; all three components are
expected present, and an entry with a malformed name is skipped by the
resolver rather than raising an error, hence the `Option`. -/
def parseFromStorageName (storageName : String) : Option Asset :=
  let nameVer := strSplitOn '@' storageName
  let name := nameVer.headD ""
  let versionStr := String.intercalate "@" nameVer.tail
  match parseVersionString versionStr with
  | (some x, some y, some z) =>
    some { name := name, major := some x, minor := some y, patch := some z, path := "" }
  | _ => none

/-- Modelled from the spec (§4.6 step 2): a version is precise when all three
components are present. -/
def isVersionPreciseEnough (a : Asset) : Bool :=
  a.major.isSome && a.minor.isSome && a.patch.isSome

/-- Modelled from the spec (§4.1): render the version value as the
dot-joined present components (the string interpolation `${asset.version}`
of the source). -/
def versionToString (a : Asset) : String :=
  match a.major, a.minor, a.patch with
  | some x, some y, some z => toString x ++ "." ++ toString y ++ "." ++ toString z
  | some x, some y, none => toString x ++ "." ++ toString y
  | some x, none, _ => toString x
  | none, _, _ => ""

/-- Modelled from the spec (§4.2 Serialize): `"{name}@{major}.{minor}.{patch}"`,
signalling an `IncompleteIdentifier` condition when any version component is
absent. -/
def serializeAssetName (a : Asset) : Except String String :=
  match a.major, a.minor, a.patch with
  | some x, some y, some z =>
    .ok (a.name ++ "@" ++ toString x ++ "." ++ toString y ++ "." ++ toString z)
  | _, _, _ => .error "IncompleteIdentifier"

/-- Modelled from the spec (§4.1, §4.3): comparison of one version component,
descending (larger value sorts first); an absent component sorts after any
present value. Negative means "first argument sorts first". -/
def compareOptionNatDesc (x y : Option Nat) : Int :=
  match x, y with
  | some a, some b => if b < a then -1 else if a < b then 1 else 0
  | some _, none => -1
  | none, some _ => 1
  | none, none => 0

/-- Modelled from the spec (§4.3 Version Comparator): total order over two
asset identifiers, by version, descending — compare major, then minor, then
patch. -/
def assetCompare (a b : Asset) : Int :=
  if compareOptionNatDesc a.major b.major ≠ 0 then compareOptionNatDesc a.major b.major
  else if compareOptionNatDesc a.minor b.minor ≠ 0 then compareOptionNatDesc a.minor b.minor
  else compareOptionNatDesc a.patch b.patch

/-- The "sorts no later than" relation induced by the comparator, used to model
the JS `Array.prototype.sort(comparator)` call (a stable sort consistent with
the comparator). -/
def assetLe (a b : Asset) : Prop := assetCompare a b ≤ 0

instance : DecidableRel assetLe := fun a b => (inferInstance : Decidable (assetCompare a b ≤ 0))

/-- Modelled from the spec (§4.4): one component of the predicate — an absent
requested component imposes no constraint; a present one must equal the
candidate's. -/
def optComponentMatches (req cand : Option Nat) : Bool :=
  match req, cand with
  | none, _ => true
  | some v, some w => v == w
  | some _, none => false

/-- Modelled from the spec (§4.4 Version Predicate): true iff every present
component of the requested version equals the corresponding component of the
candidate. -/
def assetMatches (requested candidate : Asset) : Bool :=
  optComponentMatches requested.major candidate.major &&
  optComponentMatches requested.minor candidate.minor &&
  optComponentMatches requested.patch candidate.patch

/-- The resolver of `expand.ts` (`findBestMatchingCandidate`): parse every
catalog storage name, keep those whose name equals the request's, sort by the
comparator, filter by the predicate, take the first.  `none` models the
JS function returning `undefined` when no candidate survives. -/
def findBestMatchingCandidate (catalog : List CatalogEntry) (requestedAsset : Asset) :
    Option Asset :=
  let assets := (catalog.map (fun p => p.name)).filterMap parseFromStorageName
  let eligibleAssetNamesOrdered :=
    (assets.filter (fun p => p.name = requestedAsset.name)).insertionSort assetLe
  let candidates := eligibleAssetNamesOrdered.filter (fun asset => assetMatches requestedAsset asset)
  candidates.head?

/-- The default-path lookup shared by `computeUriPath` and `assetDefaultPath`:
`catalog.find(p => p.name === storageName)?.defaultPath`, with `""` for a
missing entry or an absent default path (JS falsy). -/
def defaultPathOf (catalog : List CatalogEntry) (storageName : String) : String :=
  (((catalog.find? (fun p => p.name = storageName)).map (fun p => p.defaultPath)).getD "")

/-- The final target URI computation of `expand.ts` (`computeUriPath`).  The
candidate is the raw result of `findBestMatchingCandidate`, which in JS may be
`undefined`: the serializer then faults (modelled as a thrown `TypeError`),
exactly like a serialization of an incomplete identifier faults, and both are
caught by `expand`'s top-level handler.  Returns `""` when neither the request
nor the catalog provides a path (JS falsy result). -/
def computeUriPath (catalog : List CatalogEntry) (requestedAsset : Asset) :
    Option Asset → Except String String
  | none => .error "TypeError"
  | some candidateAsset =>
    match serializeAssetName candidateAsset with
    | .error e => .error e
    | .ok assetStorageName =>
      let defaultPath := defaultPathOf catalog assetStorageName
      if requestedAsset.path = "" ∧ defaultPath = "" then .ok ""
      else .ok ("/" ++ assetStorageName ++
        (if requestedAsset.path ≠ "" then requestedAsset.path else "/" ++ defaultPath))

/-- The default-path lookup of `expand.ts` (`assetDefaultPath`): guard on a
falsy name or version, then find the exact `name@version` entry and take its
default path, or `""`. -/
def assetDefaultPath (catalog : List CatalogEntry) (requestedAsset : Asset) : String :=
  if requestedAsset.name = "" ∨ versionToString requestedAsset = "" then ""
  else
    defaultPathOf catalog (requestedAsset.name ++ "@" ++ versionToString requestedAsset)

/-- A response action taken on the nginx request object: `r.return(status,
body)`, `r.internalRedirect(uri)`, or a header assignment `r.headersOut[k] =
v`. -/
inductive RespAction where
  | ret (status : Nat) (body : String)
  | internalRedirect (uri : String)
  | setHeader (key value : String)
deriving DecidableEq, Repr

/-- The environment of one request: the catalog snapshot (`allStoredAssets`),
the external collaborators of §6 (file reads, minifiers, etag, URI helpers of
`Minify.ts`) and the read-only configuration flags. -/
structure Env where
  catalog : List CatalogEntry
  readFile : String → Option String
  volumeMountPath : String
  resolveNonMinifiedURI : String → String
  isJsURI : String → Bool
  isCssURI : String → Bool
  minifyJS : String → String
  minifyCSS : String → String
  etagOf : String → String
  serveFiles : Bool
  corsAll : Bool
  autoResolve : Bool

/-- The `handleNotFound` helper of `expand.ts`: an internal redirect to
`/404.html`. -/
def handleNotFound : List RespAction := [.internalRedirect "/404.html"]

/-- The `redirectOrResolve` helper of `expand.ts`: attach wildcard CORS
headers when `A7_CORS_ALL` is set, then either redirect internally
(`A7_PATH_AUTO_RESOLVE` set) or answer a 302 with the target path. -/
def redirectOrResolve (env : Env) (path : String) : List RespAction :=
  (if env.corsAll then
    [RespAction.setHeader "access-control-allow-origin" "*",
     RespAction.setHeader "access-control-allow-headers" "*"]
   else []) ++
  (if env.autoResolve then [RespAction.internalRedirect path] else [RespAction.ret 302 path])

/-- The body of `expand` inside its `try` block: the list of response actions
performed, paired with `some e` when an exception escapes to the top-level
`catch` (a fault in `computeUriPath`, or the unguarded `readFile` of the
`serveFiles` branch).  The two inner `try { readFile } catch { ignore }`
blocks are modelled by `Env.readFile` returning an `Option`. -/
def expandInner (env : Env) (uri : String) : List RespAction × Option String :=
  let isMinificationRequested :=
    strEndsWith uri ".min.js" || strEndsWith uri ".min.mjs" || strEndsWith uri ".min.css"
  let requestedAsset := parseFromUrl uri
  let isVersionPrecise := isVersionPreciseEnough requestedAsset
  let isURIComplete := (requestedAsset.path != "") && isVersionPrecise
  let needsRedirect := !isURIComplete
  if !needsRedirect then
    let minActs : List RespAction :=
      if isMinificationRequested then
        match env.readFile (env.volumeMountPath ++ uri) with
        | some source => [.ret 200 source]
        | none =>
          let source := (env.readFile
            (env.volumeMountPath ++ env.resolveNonMinifiedURI uri)).getD ""
          let minified :=
            if env.isJsURI uri then env.minifyJS source
            else if env.isCssURI uri then env.minifyCSS source
            else source
          [.setHeader "cache-tag" "minified asset",
           .setHeader "etag" (env.etagOf minified),
           .ret 200 minified]
      else []
    if env.serveFiles then
      match env.readFile (env.volumeMountPath ++ uri) with
      | some content => (minActs ++ [.ret 200 content], none)
      | none => (minActs, some "ReadFailure")
    else (minActs ++ handleNotFound, none)
  else if !isVersionPrecise then
    match computeUriPath env.catalog requestedAsset
        (findBestMatchingCandidate env.catalog requestedAsset) with
    | .error e => ([], some e)
    | .ok newPath =>
      if newPath = "" then (handleNotFound, none)
      else (redirectOrResolve env newPath, none)
  else if requestedAsset.path = "" then
    let assetPath := assetDefaultPath env.catalog requestedAsset
    if assetPath = "" then (handleNotFound, none)
    else (redirectOrResolve env
      ("/" ++ requestedAsset.name ++ "@" ++ versionToString requestedAsset ++ "/" ++ assetPath),
      none)
  else (handleNotFound, none)

/-- The `expand` entry point of `expand.ts`: run the body; when an exception
reaches the top-level `catch`, log it and fall back to `handleNotFound`. -/
def expand (env : Env) (uri : String) : List RespAction :=
  if (expandInner env uri).2.isSome then (expandInner env uri).1 ++ handleNotFound
  else (expandInner env uri).1

/-- An action is terminal when it sends a response (`r.return` or
`r.internalRedirect`), as opposed to a header assignment. -/
def isTerminal : RespAction → Bool
  | .ret _ _ => true
  | .internalRedirect _ => true
  | .setHeader _ _ => false

/-- The three client-observable terminal outcomes of §4.6. -/
inductive Outcome where
  | serve (status : Nat) (body : String)
  | redirect (uri : String)
  | notFound
deriving DecidableEq, Repr

/-- Classify a single action as an outcome: a 302 is a redirect, any other
`r.return` a serve, an internal redirect to `/404.html` the NotFound outcome
and any other internal redirect a redirect; header writes are not outcomes. -/
def classifyAction : RespAction → Option Outcome
  | .ret s b => if s = 302 then some (.redirect b) else some (.serve s b)
  | .internalRedirect u => if u = "/404.html" then some .notFound else some (.redirect u)
  | .setHeader _ _ => none

/-- The first terminal outcome a client observes from a run of `expand`. -/
def expandOutcome (env : Env) (uri : String) : Option Outcome :=
  ((expand env uri).filterMap classifyAction).head?


/-- Interpretation of one optional version component as an element of
`WithBot Nat`: an absent component is the bottom of the "newness" order
(§4.1: absent sorts after any present value). -/
def km : Option Nat → WithBot Nat
  | some n => (n : WithBot Nat)
  | none => ⊥

lemma cod_le_zero_iff (x y : Option Nat) :
    compareOptionNatDesc x y ≤ 0 ↔ km y ≤ km x := by
  cases x <;> cases y <;> simp [compareOptionNatDesc, km]
  case some.some a b =>
    split_ifs with h1 h2 <;> simp [WithBot.coe_le_coe] <;> omega

lemma cod_lt_zero_iff (x y : Option Nat) :
    compareOptionNatDesc x y < 0 ↔ km y < km x := by
  cases x <;> cases y <;> simp [compareOptionNatDesc, km]
  case some.none => exact WithBot.bot_lt_coe _
  case some.some a b =>
    split_ifs with h1 h2 <;> simp [WithBot.coe_lt_coe] <;> omega

lemma cod_eq_zero_iff (x y : Option Nat) :
    compareOptionNatDesc x y = 0 ↔ km x = km y := by
  cases x <;> cases y <;> simp [compareOptionNatDesc, km]
  case some.some a b =>
    split_ifs with h1 h2 <;> simp [WithBot.coe_inj] <;> omega

/-- The comparator's non-strict order, characterised as the lexicographic
order on the `WithBot Nat` interpretations of the three components. -/
lemma assetLe_iff (a b : Asset) :
    assetLe a b ↔
      (km b.major < km a.major ∨ (km a.major = km b.major ∧
        (km b.minor < km a.minor ∨ (km a.minor = km b.minor ∧
          km b.patch ≤ km a.patch)))) := by
  unfold assetLe assetCompare
  by_cases h1 : compareOptionNatDesc a.major b.major = 0
  · have e1 := (cod_eq_zero_iff _ _).mp h1
    rw [if_neg (by simp [h1])]
    by_cases h2 : compareOptionNatDesc a.minor b.minor = 0
    · have e2 := (cod_eq_zero_iff _ _).mp h2
      rw [if_neg (by simp [h2])]
      rw [cod_le_zero_iff]
      constructor
      · intro h; exact Or.inr ⟨e1, Or.inr ⟨e2, h⟩⟩
      · rintro (h | ⟨-, h | ⟨-, h⟩⟩)
        · exact absurd h (by simp [e1])
        · exact absurd h (by simp [e2])
        · exact h
    · rw [if_pos h2]
      have hlt : compareOptionNatDesc a.minor b.minor ≤ 0 ↔
          compareOptionNatDesc a.minor b.minor < 0 := by omega
      rw [hlt, cod_lt_zero_iff]
      constructor
      · intro h; exact Or.inr ⟨e1, Or.inl h⟩
      · rintro (h | ⟨-, h | ⟨e2, -⟩⟩)
        · exact absurd h (by simp [e1])
        · exact h
        · exact absurd ((cod_eq_zero_iff _ _).mpr e2) h2
  · rw [if_pos h1]
    have hlt : compareOptionNatDesc a.major b.major ≤ 0 ↔
        compareOptionNatDesc a.major b.major < 0 := by omega
    rw [hlt, cod_lt_zero_iff]
    constructor
    · intro h; exact Or.inl h
    · rintro (h | ⟨e1, -⟩)
      · exact h
      · exact absurd ((cod_eq_zero_iff _ _).mpr e1) h1

lemma assetLe_refl (a : Asset) : assetLe a a := by
  rw [assetLe_iff]; exact Or.inr ⟨rfl, Or.inr ⟨rfl, le_refl _⟩⟩

instance : IsRefl Asset assetLe := ⟨assetLe_refl⟩

instance : IsTrans Asset assetLe := by
  constructor
  intro a b c hab hbc
  rw [assetLe_iff] at hab hbc ⊢
  rcases hab with h1 | ⟨e1, hab'⟩
  · rcases hbc with h2 | ⟨e2, -⟩
    · exact Or.inl (lt_trans h2 h1)
    · exact Or.inl (by rw [← e2]; exact h1)
  · rcases hbc with h2 | ⟨e2, hbc'⟩
    · exact Or.inl (by rw [e1]; exact h2)
    · refine Or.inr ⟨e1.trans e2, ?_⟩
      rcases hab' with h1 | ⟨f1, hab''⟩
      · rcases hbc' with h2 | ⟨f2, -⟩
        · exact Or.inl (lt_trans h2 h1)
        · exact Or.inl (by rw [← f2]; exact h1)
      · rcases hbc' with h2 | ⟨f2, hbc''⟩
        · exact Or.inl (by rw [f1]; exact h2)
        · exact Or.inr ⟨f1.trans f2, le_trans hbc'' hab''⟩

instance : IsTotal Asset assetLe := by
  constructor
  intro a b
  rw [assetLe_iff, assetLe_iff]
  rcases lt_trichotomy (km a.major) (km b.major) with h | h | h
  · exact Or.inr (Or.inl h)
  · rcases lt_trichotomy (km a.minor) (km b.minor) with h' | h' | h'
    · exact Or.inr (Or.inr ⟨h.symm, Or.inl h'⟩)
    · rcases le_total (km b.patch) (km a.patch) with h'' | h''
      · exact Or.inl (Or.inr ⟨h, Or.inr ⟨h', h''⟩⟩)
      · exact Or.inr (Or.inr ⟨h.symm, Or.inr ⟨h'.symm, h''⟩⟩)
    · exact Or.inl (Or.inr ⟨h, Or.inl h'⟩)
  · exact Or.inl (Or.inl h)

/-- The name-filtered candidate set of the resolver: every catalog storage
name parsed, unparsable entries discarded, kept only when the parsed name
equals the requested name. -/
def eligibleAssets (catalog : List CatalogEntry) (name : String) : List Asset :=
  ((catalog.map (fun p => p.name)).filterMap parseFromStorageName).filter
    (fun p => p.name = name)

lemma assetMatches_unconstrained (req cand : Asset) (h1 : req.major = none)
    (h2 : req.minor = none) (h3 : req.patch = none) : assetMatches req cand = true := by
  simp [assetMatches, h1, h2, h3, optComponentMatches]

lemma findBestMatchingCandidate_eq (catalog : List CatalogEntry) (req : Asset) :
    findBestMatchingCandidate catalog req =
      (((eligibleAssets catalog req.name).insertionSort assetLe).filter
        (fun a => assetMatches req a)).head? := rfl

/-- C4: for every non-empty set of catalog entries sharing the request's name,
the resolver applied to an unconstrained request (all three version components
absent) returns an entry of that set that is maximal in the comparator's order
(the newest version). -/
theorem resolver_unconstrained_returns_max (catalog : List CatalogEntry) (req : Asset)
    (h1 : req.major = none) (h2 : req.minor = none) (h3 : req.patch = none)
    (hne : eligibleAssets catalog req.name ≠ []) :
    ∃ best, findBestMatchingCandidate catalog req = some best ∧
      best ∈ eligibleAssets catalog req.name ∧
      ∀ b ∈ eligibleAssets catalog req.name, assetLe best b := by
  have hfil : (((eligibleAssets catalog req.name).insertionSort assetLe).filter
      (fun a => assetMatches req a)) =
      (eligibleAssets catalog req.name).insertionSort assetLe :=
    List.filter_eq_self.mpr (fun a _ => assetMatches_unconstrained req a h1 h2 h3)
  rw [findBestMatchingCandidate_eq, hfil]
  have hperm := List.perm_insertionSort assetLe (eligibleAssets catalog req.name)
  cases hs : (eligibleAssets catalog req.name).insertionSort assetLe with
  | nil =>
    rw [hs] at hperm
    exact absurd hperm.symm.eq_nil hne
  | cons best rest =>
    rw [hs] at hperm
    refine ⟨best, rfl, ?_, ?_⟩
    · exact hperm.mem_iff.mp (List.mem_cons_self _ _)
    · intro b hb
      have hbs : b ∈ best :: rest := hperm.mem_iff.mpr hb
      have hsorted := List.sorted_insertionSort assetLe (eligibleAssets catalog req.name)
      rw [hs] at hsorted
      rcases List.mem_cons.mp hbs with rfl | htail
      · exact assetLe_refl b
      · exact List.rel_of_sorted_cons hsorted b htail

/-- A catalog used to exhibit concrete runs. -/
def demoCatalog : List CatalogEntry :=
  [⟨"bob@1.3.3", "index.css"⟩, ⟨"bob@2.0.0", "index.css"⟩, ⟨"bob@1.3.4", "index.css"⟩]

/-- Witness for C4 at a concrete catalog and the unconstrained request
`/bob`. -/
theorem resolver_unconstrained_returns_max_witness :
    ∃ best, findBestMatchingCandidate demoCatalog (parseFromUrl "/bob") = some best ∧
      best ∈ eligibleAssets demoCatalog (parseFromUrl "/bob").name ∧
      ∀ b ∈ eligibleAssets demoCatalog (parseFromUrl "/bob").name, assetLe best b :=
  resolver_unconstrained_returns_max demoCatalog (parseFromUrl "/bob")
    (by decide) (by decide) (by decide) (by decide)

/-- Modelled from the spec's words (§4.5 Resolver algorithm): 1. parse every
catalog storage name, silently discarding entries that fail to parse or whose
name differs from the request's; 2. sort the remaining candidates by the
comparator; 3. filter the ordered sequence by the predicate; 4. the first
surviving element is the best match, none surviving means no match.  Written
for comparison with the source's `findBestMatchingCandidate`. -/
def resolverSpec (catalog : List CatalogEntry) (requested : Asset) : Option Asset :=
  let kept := catalog.filterMap (fun entry =>
    (parseFromStorageName entry.name).bind (fun a =>
      if a.name = requested.name then some a else none))
  let ordered := kept.insertionSort assetLe
  let surviving := ordered.filter (fun a => assetMatches requested a)
  surviving.head?

lemma kept_eq (catalog : List CatalogEntry) (name : String) :
    catalog.filterMap (fun entry =>
      (parseFromStorageName entry.name).bind (fun a =>
        if a.name = name then some a else none)) =
    ((catalog.map (fun p => p.name)).filterMap parseFromStorageName).filter
      (fun p => p.name = name) := by
  induction catalog with
  | nil => rfl
  | cons e rest ih =>
    simp only [List.map_cons, List.filterMap_cons]
    cases hp : parseFromStorageName e.name with
    | none => simpa using ih
    | some a =>
      by_cases hn : a.name = name
      · simp [hn, List.filter_cons, ih]
      · simp [hn, List.filter_cons, ih]

/-- C1: the source's resolver agrees everywhere with the spec's
parse-discard, sort, filter, take-first sequence. -/
theorem findBestMatchingCandidate_follows_spec (catalog : List CatalogEntry)
    (requested : Asset) :
    findBestMatchingCandidate catalog requested = resolverSpec catalog requested := by
  unfold findBestMatchingCandidate resolverSpec
  rw [kept_eq]

/-- One run of the resolver with the JS array effects made explicit.  In the
source, `allStoredAssets(r)` yields the snapshot array; `.map` and `.filter`
allocate fresh arrays, and the only in-place mutation — `.sort` — is applied
to the array allocated by `.filter`.  The record threads the contents of the
snapshot array as seen by the catalog collaborator after the call, together
with the contents of the sorted name-filtered copy. -/
structure ResolverRun where
  result : Option Asset
  snapshotAfter : List CatalogEntry
  sortedCopyAfter : List Asset

/-- `findBestMatchingCandidate` with its state effects threaded explicitly:
no step of the pipeline writes to the snapshot array, so its post-state is its
pre-state; the in-place sort acts on the fresh array produced by the name
filter. -/
def findBestMatchingCandidateRun (catalog : List CatalogEntry) (requestedAsset : Asset) :
    ResolverRun :=
  let assets := (catalog.map (fun p => p.name)).filterMap parseFromStorageName
  let filtered := assets.filter (fun p => p.name = requestedAsset.name)
  let sortedInPlace := filtered.insertionSort assetLe
  { result := (sortedInPlace.filter (fun a => assetMatches requestedAsset a)).head?
    snapshotAfter := catalog
    sortedCopyAfter := sortedInPlace }

/-- C8: a resolver run leaves the catalog snapshot unchanged (same entries,
same order, same fields) and computes the same best match as the pure
pipeline, while the list it sorted in place is (only) a permutation of the
name-filtered candidates — the sort never touches the snapshot itself. -/
theorem resolver_preserves_snapshot (catalog : List CatalogEntry) (req : Asset) :
    (findBestMatchingCandidateRun catalog req).snapshotAfter = catalog ∧
    (findBestMatchingCandidateRun catalog req).result = findBestMatchingCandidate catalog req ∧
    (findBestMatchingCandidateRun catalog req).sortedCopyAfter.Perm
      (eligibleAssets catalog req.name) :=
  ⟨rfl, rfl, List.perm_insertionSort _ _⟩

/-- A base environment used to exhibit concrete runs. -/
def demoEnv : Env :=
  { catalog := demoCatalog
    readFile := fun _ => none
    volumeMountPath := ""
    resolveNonMinifiedURI := fun s => s
    isJsURI := fun _ => false
    isCssURI := fun _ => false
    minifyJS := fun s => s
    minifyCSS := fun s => s
    etagOf := fun _ => ""
    serveFiles := false
    corsAll := false
    autoResolve := false }

/-- C7: `redirectOrResolve` answers with an internal redirect exactly when the
resolve-internally flag is set and with a 302 carrying the target path
otherwise; whenever the CORS-allow-all flag is set, both wildcard CORS headers
are attached, with either redirect strategy. -/
theorem redirectOrResolve_policy (env : Env) (path : String) :
    (env.autoResolve = true →
      (redirectOrResolve env path).filter isTerminal = [RespAction.internalRedirect path]) ∧
    (env.autoResolve = false →
      (redirectOrResolve env path).filter isTerminal = [RespAction.ret 302 path]) ∧
    (env.corsAll = true →
      RespAction.setHeader "access-control-allow-origin" "*" ∈ redirectOrResolve env path ∧
      RespAction.setHeader "access-control-allow-headers" "*" ∈ redirectOrResolve env path) := by
  refine ⟨fun h => ?_, fun h => ?_, fun h => ?_⟩ <;>
    cases hc : env.corsAll <;>
      simp [redirectOrResolve, h, hc, isTerminal]

/-- Witness for C7 with both flags set: the terminal action is the internal
redirect and the wildcard origin header is attached. -/
theorem redirectOrResolve_policy_witness :
    (redirectOrResolve { demoEnv with corsAll := true, autoResolve := true } "/p").filter
      isTerminal = [RespAction.internalRedirect "/p"] ∧
    RespAction.setHeader "access-control-allow-origin" "*" ∈
      redirectOrResolve { demoEnv with corsAll := true, autoResolve := true } "/p" :=
  ⟨(redirectOrResolve_policy { demoEnv with corsAll := true, autoResolve := true } "/p").1 rfl,
   ((redirectOrResolve_policy { demoEnv with corsAll := true, autoResolve := true } "/p").2.2
     rfl).1⟩

lemma slash_append_ne_empty (s t : String) : ("/" ++ s ++ t) ≠ "" := by
  intro hE
  have hlen := congrArg String.length hE
  have h1 : ("/" : String).length = 1 := rfl
  simp [String.length_append] at hlen
  omega

/-- C2: on a request whose parsed version is imprecise, `expand` consults the
resolver; no match means NotFound (the serializer faults on the undefined
candidate and the fault is caught); with a match serialized as `s`, the
target is `/s` followed by the request's path when one was given, else
`/s/defaultPath`; when neither the request nor the catalog provides a path,
NotFound. -/
theorem expand_imprecise_behavior (env : Env) (uri : String)
    (h : isVersionPreciseEnough (parseFromUrl uri) = false) :
    (findBestMatchingCandidate env.catalog (parseFromUrl uri) = none →
      expand env uri = handleNotFound) ∧
    (∀ c s, findBestMatchingCandidate env.catalog (parseFromUrl uri) = some c →
      serializeAssetName c = Except.ok s →
      ((parseFromUrl uri).path = "" → defaultPathOf env.catalog s = "" →
        expand env uri = handleNotFound) ∧
      ((parseFromUrl uri).path ≠ "" →
        expand env uri = redirectOrResolve env ("/" ++ s ++ (parseFromUrl uri).path)) ∧
      ((parseFromUrl uri).path = "" → defaultPathOf env.catalog s ≠ "" →
        expand env uri = redirectOrResolve env
          ("/" ++ s ++ ("/" ++ defaultPathOf env.catalog s)))) := by
  constructor
  · intro hfind
    have hinner : expandInner env uri = ([], some "TypeError") := by
      simp [expandInner, h, hfind, computeUriPath]
    simp [expand, hinner, handleNotFound]
  · intro c s hfind hser
    refine ⟨?_, ?_, ?_⟩
    · intro hp hdp
      have hcu : computeUriPath env.catalog (parseFromUrl uri)
          (findBestMatchingCandidate env.catalog (parseFromUrl uri)) = .ok "" := by
        simp [hfind, computeUriPath, hser, hp, hdp]
      have hinner : expandInner env uri = (handleNotFound, none) := by
        simp [expandInner, h, hcu]
      simp [expand, hinner]
    · intro hp
      have hcu : computeUriPath env.catalog (parseFromUrl uri)
          (findBestMatchingCandidate env.catalog (parseFromUrl uri)) =
          .ok ("/" ++ s ++ (parseFromUrl uri).path) := by
        simp [hfind, computeUriPath, hser, hp]
      have hinner : expandInner env uri =
          (redirectOrResolve env ("/" ++ s ++ (parseFromUrl uri).path), none) := by
        simp [expandInner, h, hcu, slash_append_ne_empty]
      simp [expand, hinner]
    · intro hp hdp
      have hcu : computeUriPath env.catalog (parseFromUrl uri)
          (findBestMatchingCandidate env.catalog (parseFromUrl uri)) =
          .ok ("/" ++ s ++ ("/" ++ defaultPathOf env.catalog s)) := by
        simp [hfind, computeUriPath, hser, hp, hdp]
      have hinner : expandInner env uri =
          (redirectOrResolve env ("/" ++ s ++ ("/" ++ defaultPathOf env.catalog s)), none) := by
        simp [expandInner, h, hcu, slash_append_ne_empty]
      simp [expand, hinner]

/-- Witness for C2: the scenario of §8 — request `/bob@1` against the demo
catalog resolves to `bob@1.3.4` and redirects to its default path. -/
theorem expand_imprecise_behavior_witness :
    expand demoEnv "/bob@1" = redirectOrResolve demoEnv
      ("/" ++ "bob@1.3.4" ++ ("/" ++ defaultPathOf demoEnv.catalog "bob@1.3.4")) :=
  (((expand_imprecise_behavior demoEnv "/bob@1" (by decide)).2
      { name := "bob", major := some 1, minor := some 3, patch := some 4, path := "" }
      "bob@1.3.4" (by decide) rfl).2.2) (by decide) (by decide)

lemma versionToString_ne_of_precise (a : Asset) (h : isVersionPreciseEnough a = true) :
    versionToString a ≠ "" := by
  simp [isVersionPreciseEnough] at h
  obtain ⟨⟨hx, hy⟩, hz⟩ := h
  rcases hmx : a.major with _ | x
  · rw [hmx] at hx; simp at hx
  rcases hmy : a.minor with _ | y
  · rw [hmy] at hy; simp at hy
  rcases hmz : a.patch with _ | z
  · rw [hmz] at hz; simp at hz
  simp only [versionToString, hmx, hmy, hmz]
  intro hE
  have hlen := congrArg String.length hE
  have h1 : ("." : String).length = 1 := rfl
  simp [String.length_append] at hlen
  omega

/-- C5: on a request with a fully precise version and no path, `expand` looks
up the default path registered for the exact asset `name@version`; none means
NotFound, otherwise a redirect to `/name@version/defaultPath`. -/
theorem expand_precise_nopath_behavior (env : Env) (uri : String)
    (hprec : isVersionPreciseEnough (parseFromUrl uri) = true)
    (hpath : (parseFromUrl uri).path = "")
    (hname : (parseFromUrl uri).name ≠ "") :
    (defaultPathOf env.catalog
        ((parseFromUrl uri).name ++ "@" ++ versionToString (parseFromUrl uri)) = "" →
      expand env uri = handleNotFound) ∧
    (defaultPathOf env.catalog
        ((parseFromUrl uri).name ++ "@" ++ versionToString (parseFromUrl uri)) ≠ "" →
      expand env uri = redirectOrResolve env
        ("/" ++ (parseFromUrl uri).name ++ "@" ++ versionToString (parseFromUrl uri) ++ "/" ++
          defaultPathOf env.catalog
            ((parseFromUrl uri).name ++ "@" ++ versionToString (parseFromUrl uri)))) := by
  have hadp : assetDefaultPath env.catalog (parseFromUrl uri) =
      defaultPathOf env.catalog
        ((parseFromUrl uri).name ++ "@" ++ versionToString (parseFromUrl uri)) := by
    rw [assetDefaultPath, if_neg]
    push_neg
    exact ⟨hname, versionToString_ne_of_precise _ hprec⟩
  constructor
  · intro hdp
    have hinner : expandInner env uri = (handleNotFound, none) := by
      simp [expandInner, hprec, hpath, hadp, hdp]
    simp [expand, hinner]
  · intro hdp
    have hinner : expandInner env uri =
        (redirectOrResolve env
          ("/" ++ (parseFromUrl uri).name ++ "@" ++ versionToString (parseFromUrl uri) ++ "/" ++
            defaultPathOf env.catalog
              ((parseFromUrl uri).name ++ "@" ++ versionToString (parseFromUrl uri))),
         none) := by
      simp [expandInner, hprec, hpath, hadp, hdp]
    simp [expand, hinner]

/-- Witness for C5: `/bob@1.3.4` with no path redirects to the registered
default path of exactly `bob@1.3.4` in the demo catalog. -/
theorem expand_precise_nopath_behavior_witness :
    expand demoEnv "/bob@1.3.4" = redirectOrResolve demoEnv
      ("/" ++ (parseFromUrl "/bob@1.3.4").name ++ "@" ++
        versionToString (parseFromUrl "/bob@1.3.4") ++ "/" ++
        defaultPathOf demoEnv.catalog
          ((parseFromUrl "/bob@1.3.4").name ++ "@" ++
            versionToString (parseFromUrl "/bob@1.3.4"))) :=
  (expand_precise_nopath_behavior demoEnv "/bob@1.3.4"
    (by decide) (by decide) (by decide)).2 (by decide)
lemma redirectOrResolve_has_terminal (env : Env) (p : String) :
    ∃ a ∈ redirectOrResolve env p, isTerminal a = true := by
  refine ⟨if env.autoResolve then .internalRedirect p else .ret 302 p, ?_, ?_⟩
  · unfold redirectOrResolve
    refine List.mem_append_right _ ?_
    cases h : env.autoResolve <;> simp [h]
  · cases h : env.autoResolve <;> simp [h, isTerminal]

lemma expandInner_shape (env : Env) (uri : String) :
    (∃ a ∈ (expandInner env uri).1, isTerminal a = true) ∨
      (expandInner env uri).2.isSome = true := by
  cases hc : (((parseFromUrl uri).path != "") && isVersionPreciseEnough (parseFromUrl uri)) with
  | true =>
    cases hsf : env.serveFiles with
    | true =>
      cases hrf : env.readFile (env.volumeMountPath ++ uri) with
      | none =>
        right
        simp [expandInner, hc, hsf, hrf]
      | some content =>
        left
        refine ⟨.ret 200 content, ?_, rfl⟩
        simp [expandInner, hc, hsf, hrf]
    | false =>
      left
      refine ⟨.internalRedirect "/404.html", ?_, rfl⟩
      simp [expandInner, hc, hsf, handleNotFound]
  | false =>
    cases hv : isVersionPreciseEnough (parseFromUrl uri) with
    | false =>
      cases hcu : computeUriPath env.catalog (parseFromUrl uri)
          (findBestMatchingCandidate env.catalog (parseFromUrl uri)) with
      | error e =>
        right
        simp [expandInner, hc, hv, hcu]
      | ok newPath =>
        by_cases hnp : newPath = ""
        · left
          have h1 : (expandInner env uri).1 = handleNotFound := by
            simp [expandInner, hc, hv, hcu, hnp]
          rw [h1]
          exact ⟨.internalRedirect "/404.html", List.mem_cons_self _ _, rfl⟩
        · left
          have h1 : (expandInner env uri).1 = redirectOrResolve env newPath := by
            simp [expandInner, hc, hv, hcu, hnp]
          rw [h1]
          exact redirectOrResolve_has_terminal env newPath
    | true =>
      have hp : (parseFromUrl uri).path = "" := by
        rw [hv, Bool.and_true] at hc
        simpa using hc
      by_cases hap : assetDefaultPath env.catalog (parseFromUrl uri) = ""
      · left
        have h1 : (expandInner env uri).1 = handleNotFound := by
          simp [expandInner, hc, hv, hp, hap]
        rw [h1]
        exact ⟨.internalRedirect "/404.html", List.mem_cons_self _ _, rfl⟩
      · left
        have h1 : (expandInner env uri).1 = redirectOrResolve env
            ("/" ++ (parseFromUrl uri).name ++ "@" ++ versionToString (parseFromUrl uri) ++
              "/" ++ assetDefaultPath env.catalog (parseFromUrl uri)) := by
          simp [expandInner, hc, hv, hp, hap]
        rw [h1]
        exact redirectOrResolve_has_terminal env _

lemma classifyAction_isSome_of_terminal (a : RespAction) (h : isTerminal a = true) :
    (classifyAction a).isSome = true := by
  cases a with
  | ret s b => by_cases h302 : s = 302 <;> simp [classifyAction, h302]
  | internalRedirect u => by_cases h404 : u = "/404.html" <;> simp [classifyAction, h404]
  | setHeader k v => simp [isTerminal] at h

/-- C3: every run of `expand` produces a classified terminal outcome — Serve,
Redirect or NotFound — and whenever the body faults (the fault value reaching
the top-level catch), the run ends with the NotFound internal redirect: no
exception escapes `expand`. -/
theorem expand_total_outcome (env : Env) (uri : String) :
    (expandOutcome env uri).isSome = true ∧
    (∀ e, (expandInner env uri).2 = some e →
      (expand env uri).getLast? = some (RespAction.internalRedirect "/404.html")) := by
  constructor
  · have hterm : ∃ a ∈ expand env uri, isTerminal a = true := by
      rcases expandInner_shape env uri with ⟨a, ha, hta⟩ | herr
      · unfold expand
        split
        · exact ⟨a, List.mem_append_left _ ha, hta⟩
        · exact ⟨a, ha, hta⟩
      · unfold expand
        rw [if_pos herr]
        exact ⟨.internalRedirect "/404.html",
          List.mem_append_right _ (List.mem_cons_self _ _), rfl⟩
    rcases hterm with ⟨a, ha, hta⟩
    have hcs := classifyAction_isSome_of_terminal a hta
    rcases ho : classifyAction a with _ | o
    · rw [ho] at hcs; simp at hcs
    · have hmem : o ∈ (expand env uri).filterMap classifyAction :=
        List.mem_filterMap.mpr ⟨a, ha, ho⟩
      have hne : (expand env uri).filterMap classifyAction ≠ [] :=
        List.ne_nil_of_mem hmem
      unfold expandOutcome
      exact List.head?_isSome.mpr hne
  · intro e he
    unfold expand
    rw [if_pos (by rw [he]; rfl)]
    exact List.getLast?_concat _

/-- Witness for C3: with direct serving enabled and a missing file, the body
faults with a read failure and the run still ends in the NotFound internal
redirect, with a defined outcome. -/
theorem expand_total_outcome_witness :
    (expandOutcome { demoEnv with serveFiles := true } "/bob@1.2.3/x.css").isSome = true ∧
    (expand { demoEnv with serveFiles := true } "/bob@1.2.3/x.css").getLast? =
      some (RespAction.internalRedirect "/404.html") :=
  ⟨(expand_total_outcome { demoEnv with serveFiles := true } "/bob@1.2.3/x.css").1,
   (expand_total_outcome { demoEnv with serveFiles := true } "/bob@1.2.3/x.css").2
     "ReadFailure" (by decide)⟩

/-- C6 fails on the code: on a complete URI requesting a pre-minified asset
that exists in storage, `expand` answers `r.return(200, source)` and then
falls through to the serve-files check, performing a second terminal action
(here the NotFound internal redirect) — two terminal response actions in one
request, where the spec requires exactly one. -/
theorem expand_complete_minified_two_terminal_actions :
    (expand { demoEnv with readFile := fun _ => some "minified" } "/bob@1.2.3/a.min.js").filter
      isTerminal =
      [RespAction.ret 200 "minified", RespAction.internalRedirect "/404.html"] := by decide

/-- The per-character loop of `localeCompare` in `String.ts`, over strings
modelled as their lists of UTF-16 char codes (`charCodeAt` values): the index
loop over the common prefix is rendered as structural recursion consuming
both lists, and the trailing length comparison (lines 68–74 of the source) is
the base case reached when at least one list is exhausted — the remaining
lengths then compare exactly as the full lengths do. -/
def localeCompareChars : List Nat → List Nat → Int
  | c1 :: r1, c2 :: r2 =>
    if c1 < c2 then -1 else if c1 > c2 then 1 else localeCompareChars r1 r2
  | r1, r2 =>
    if r1.length < r2.length then -1
    else if r1.length > r2.length then 1
    else 0

/-- The `localeCompare` of `String.ts`: `none` models an `undefined`
argument; both `undefined` gives 0, an `undefined` first argument gives 1, an
`undefined` second argument gives -1, and two defined strings are compared
character by character. -/
def localeCompare : Option (List Nat) → Option (List Nat) → Int
  | none, none => 0
  | none, some _ => 1
  | some _, none => -1
  | some s1, some s2 => localeCompareChars s1 s2

/-- Mathematical lexicographic comparison of char-code sequences, with the
shorter sequence first when one is a proper prefix of the other; stated from
the claim's words, for comparison with the source's loop. -/
def lexCompare : List Nat → List Nat → Int
  | [], [] => 0
  | [], _ :: _ => -1
  | _ :: _, [] => 1
  | a :: s, b :: t => if a < b then -1 else if b < a then 1 else lexCompare s t

lemma localeCompareChars_eq_lexCompare (s t : List Nat) :
    localeCompareChars s t = lexCompare s t := by
  induction s generalizing t with
  | nil => cases t <;> simp [localeCompareChars, lexCompare]
  | cons a s ih =>
    cases t with
    | nil => simp [localeCompareChars, lexCompare]
    | cons b t =>
      simp only [localeCompareChars, lexCompare, ih]

lemma lexCompare_vals (s t : List Nat) :
    lexCompare s t = -1 ∨ lexCompare s t = 0 ∨ lexCompare s t = 1 := by
  induction s generalizing t with
  | nil => cases t <;> simp [lexCompare]
  | cons a s ih =>
    cases t with
    | nil => simp [lexCompare]
    | cons b t =>
      simp only [lexCompare]
      rcases ih t with h | h | h <;> split_ifs <;> simp [h]

lemma lexCompare_eq_zero_iff (s t : List Nat) : lexCompare s t = 0 ↔ s = t := by
  induction s generalizing t with
  | nil => cases t <;> simp [lexCompare]
  | cons a s ih =>
    cases t with
    | nil => simp [lexCompare]
    | cons b t =>
      simp only [lexCompare]
      split_ifs with h1 h2 <;> simp [ih] <;> omega

lemma lexCompare_neg (s t : List Nat) : lexCompare s t = -(lexCompare t s) := by
  induction s generalizing t with
  | nil => cases t <;> simp [lexCompare]
  | cons a s ih =>
    cases t with
    | nil => simp [lexCompare]
    | cons b t =>
      simp only [lexCompare]
      split_ifs <;> first | omega | exact ih t

lemma lexCompare_trans (s t u : List Nat) (h1 : lexCompare s t ≤ 0)
    (h2 : lexCompare t u ≤ 0) : lexCompare s u ≤ 0 := by
  induction s generalizing t u with
  | nil => cases u <;> simp [lexCompare]
  | cons a s ih =>
    cases t with
    | nil => simp [lexCompare] at h1
    | cons b t =>
      cases u with
      | nil => simp [lexCompare] at h2
      | cons c u =>
        simp only [lexCompare] at h1 h2 ⊢
        split_ifs at h1 h2 ⊢ <;> try omega
        exact ih t u h1 h2

/-- C9: `localeCompare` is a total order on optional strings returning only
-1, 0 or 1: it returns 0 exactly on equal arguments (equal code sequences, or
both `undefined`); an `undefined` argument compares greater than any defined
string; on two defined strings it agrees with lexicographic comparison of
UTF-16 char codes with the shorter string first on a proper prefix; it is
antisymmetric, and its induced non-strict order is transitive. -/
theorem localeCompare_total_order :
    (∀ a b : Option (List Nat),
      localeCompare a b = -1 ∨ localeCompare a b = 0 ∨ localeCompare a b = 1) ∧
    (∀ a b : Option (List Nat), localeCompare a b = 0 ↔ a = b) ∧
    (∀ s : List Nat, localeCompare none (some s) = 1 ∧ localeCompare (some s) none = -1) ∧
    (∀ s t : List Nat, localeCompare (some s) (some t) = lexCompare s t) ∧
    (∀ a b : Option (List Nat), localeCompare a b = -(localeCompare b a)) ∧
    (∀ a b c : Option (List Nat),
      localeCompare a b ≤ 0 → localeCompare b c ≤ 0 → localeCompare a c ≤ 0) := by
  have hagree : ∀ s t : List Nat, localeCompare (some s) (some t) = lexCompare s t :=
    fun s t => localeCompareChars_eq_lexCompare s t
  refine ⟨?_, ?_, ?_, hagree, ?_, ?_⟩
  · rintro (_ | s) (_ | t) <;> simp [localeCompare]
    exact (localeCompareChars_eq_lexCompare s t) ▸ lexCompare_vals s t
  · rintro (_ | s) (_ | t) <;> simp [localeCompare]
    rw [localeCompareChars_eq_lexCompare]
    exact lexCompare_eq_zero_iff s t
  · intro s; exact ⟨rfl, rfl⟩
  · rintro (_ | s) (_ | t) <;> simp [localeCompare]
    rw [localeCompareChars_eq_lexCompare, localeCompareChars_eq_lexCompare]
    exact lexCompare_neg s t
  · rintro (_ | s) (_ | t) (_ | u) <;>
      simp only [localeCompare, localeCompareChars_eq_lexCompare] <;>
      intro h1 h2 <;>
      first
        | omega
        | exact lexCompare_trans s t u h1 h2

/-- Witness for C9: the transitivity clause applied at concrete inputs —
"a" precedes "ab" and "ab" precedes `undefined`, hence "a" precedes
`undefined`. -/
theorem localeCompare_total_order_witness :
    localeCompare (some [97]) none ≤ 0 :=
  localeCompare_total_order.2.2.2.2.2 (some [97]) (some [97, 98]) none
    (by decide) (by decide)

/-- JS `ToInt32`: wrap an integer modulo 2^32 into the signed 32-bit range
`[-2^31, 2^31)`, as performed by `|= 0` and by the result of `<< 5`. -/
def toInt32 (n : Int) : Int :=
  if 2147483648 ≤ n % 4294967296 then n % 4294967296 - 4294967296 else n % 4294967296

/-- One loop iteration of `hash` in `String.ts`:
`resultHash = (resultHash << 5) - resultHash + currentCharCode` followed by
`resultHash |= 0`.  The shift of a 32-bit value left by 5 is multiplication
by 32 wrapped to 32 signed bits; the `|= 0` wraps the full expression. -/
def hashStep (h : Int) (c : Nat) : Int := toInt32 (toInt32 (h * 32) - h + c)

/-- The accumulator of `hash` after the loop over the char codes, starting
from 0. -/
def hashInt (codes : List Nat) : Int := codes.foldl hashStep 0

/-- The `hash` of `String.ts`: the decimal string of the folded 32-bit
accumulator, over the input's UTF-16 char codes.  (Named `strHash` here only
because `hash` collides with `Hashable.hash` from the library.) -/
def strHash (codes : List Nat) : String := toString (hashInt codes)

/-- The claim's fold: `h ↦ 32*h - h + c` wrapped modulo 2^32 into the signed
range, in one wrap per step; stated from the claim's words. -/
def hashStepSpec (h : Int) (c : Nat) : Int := toInt32 (32 * h - h + c)

/-- The claim's accumulator. -/
def hashIntSpec (codes : List Nat) : Int := codes.foldl hashStepSpec 0

lemma toInt32_emod (x : Int) : toInt32 x % 4294967296 = x % 4294967296 := by
  rw [toInt32]; split <;> omega

lemma toInt32_congr (x y : Int) (h : x % 4294967296 = y % 4294967296) :
    toInt32 x = toInt32 y := by
  rw [toInt32, toInt32, h]

lemma toInt32_range (x : Int) : -2147483648 ≤ toInt32 x ∧ toInt32 x < 2147483648 := by
  rw [toInt32]
  have h1 : 0 ≤ x % 4294967296 := by omega
  have h2 : x % 4294967296 < 4294967296 := by omega
  split <;> omega

lemma hashStep_eq_spec (h : Int) (c : Nat) : hashStep h c = hashStepSpec h c := by
  rw [hashStep, hashStepSpec]
  apply toInt32_congr
  have hm := toInt32_emod (h * 32)
  omega

lemma hashInt_eq_spec (codes : List Nat) : hashInt codes = hashIntSpec codes := by
  rw [hashInt, hashIntSpec]
  have hfun : hashStep = hashStepSpec := funext fun h => funext fun c => hashStep_eq_spec h c
  rw [hfun]

lemma hashIntSpec_range (codes : List Nat) :
    -2147483648 ≤ hashIntSpec codes ∧ hashIntSpec codes < 2147483648 := by
  rw [hashIntSpec]
  have haux : ∀ (cs : List Nat) (init : Int),
      -2147483648 ≤ init → init < 2147483648 →
      -2147483648 ≤ cs.foldl hashStepSpec init ∧ cs.foldl hashStepSpec init < 2147483648 := by
    intro cs
    induction cs with
    | nil => intro init hlo hhi; exact ⟨hlo, hhi⟩
    | cons c cs ih =>
      intro init hlo hhi
      have hr := toInt32_range (32 * init - init + c)
      exact ih (hashStepSpec init c) hr.1 hr.2
  exact haux codes 0 (by omega) (by omega)

/-- C10: `hash` returns the decimal string of the signed 32-bit integer
obtained by folding `h ↦ (32*h - h + charCode)` wrapped modulo 2^32 into the
signed range, starting from 0; it is deterministic, and the hash of the empty
string is `"0"`. -/
theorem hash_decimal_of_int32_fold :
    (∀ codes : List Nat, strHash codes = toString (hashIntSpec codes)) ∧
    (∀ codes : List Nat,
      -2147483648 ≤ hashIntSpec codes ∧ hashIntSpec codes < 2147483648) ∧
    (∀ codes1 codes2 : List Nat, codes1 = codes2 → strHash codes1 = strHash codes2) ∧
    strHash [] = "0" := by
  refine ⟨?_, hashIntSpec_range, ?_, rfl⟩
  · intro codes; rw [strHash, hashInt_eq_spec]
  · intro codes1 codes2 h; rw [h]

/-- Witness for C10: determinism applied at a concrete input, together with
the concrete empty-string hash. -/
theorem hash_decimal_of_int32_fold_witness :
    strHash [104, 105] = strHash [104, 105] ∧ strHash [] = "0" :=
  ⟨hash_decimal_of_int32_fold.2.2.1 [104, 105] [104, 105] rfl,
   hash_decimal_of_int32_fold.2.2.2⟩
